import Mathlib

/-!
Shallow embedding of the synthetic-label generator in
`src/pipelines/labeling.py` (the `Labeling` flow, in particular the
`_label_sagemaker_data` routine and the `label` step dispatch).

Modelling choices:
* a pandas row of the collected dataset becomes a `Row` with the two
  columns the routine reads, `event_id` and `prediction`;
* `random.random()` becomes a stream `rand : Nat → ℚ` of values consumed
  one per row in iteration order, and `random.choice` a stream
  `ch : Nat → Fin labelUniverse.length` of index draws for the substitute
  label; the quality parameter is a rational `q`;
* `data.groupby("event_id")` becomes `groupedData`: keys are the distinct
  `event_id` values sorted ascending (pandas sorts group keys by default)
  and each group keeps its rows in input order;
* `json.dumps` on the fixed-shape record dict becomes `dumpsRecord`, a
  faithful rendering of CPython json.dumps with default options
  (separators are a comma-space and a colon-space, ensure ascii) applied
  to that dict shape, including string escaping;
* the side effects of `_label_sagemaker_data` (the data load and the S3
  put-object call) are recorded as an explicit effect trace, and a raised
  Python exception becomes an `error` field distinguishing `RuntimeError`
  from `ValueError`.
-/

/-- One row of the unlabeled collected dataset: the two columns that
`_label_sagemaker_data` reads. -/
structure Row where
  event_id : String
  prediction : String
deriving DecidableEq, Repr

/-- The fixed label universe passed to `random.choice` in the source:
`["Adelie", "Chinstrap", "Gentoo"]`. -/
def labelUniverse : List String := ["Adelie", "Chinstrap", "Gentoo"]

/-- Labels one group's predictions, one RNG position per row:
`row["prediction"] if random.random() < quality else random.choice(universe)`.
`n` is the position of the next RNG draw. -/
def labelPreds (q : ℚ) (rand : Nat → ℚ) (ch : Nat → Fin labelUniverse.length) :
    Nat → List String → List String
  | _, [] => []
  | n, p :: ps =>
      (if rand n < q then p else labelUniverse.get (ch n)) ::
        labelPreds q rand ch (n + 1) ps

/-- Lexicographic order on character lists, by code point, as Python
compares strings. -/
def charListLe : List Char → List Char → Bool
  | [], _ => true
  | _ :: _, [] => false
  | a :: as, b :: bs =>
      if a < b then true else if b < a then false else charListLe as bs

/-- Lexicographic string comparison, as Python compares strings. -/
def strLe (a b : String) : Bool :=
  charListLe a.data b.data

/-- Inserts a string into a `strLe`-sorted list, keeping it sorted. -/
def insertSorted (a : String) : List String → List String
  | [] => [a]
  | b :: bs => if strLe a b then a :: b :: bs else b :: insertSorted a bs

/-- Insertion sort by `strLe`: ascending lexicographic order, as pandas
sorts string group keys. -/
def sortStrings : List String → List String
  | [] => []
  | a :: as => insertSorted a (sortStrings as)

/-- `data.groupby("event_id")`: the distinct `event_id` values in ascending
order, each paired with the `prediction` column of its rows in input
order. -/
def groupedData (rows : List Row) : List (String × List String) :=
  (sortStrings ((rows.map Row.event_id).dedup)).map
    fun k => (k, (rows.filter fun r => r.event_id == k).map Row.prediction)

/-- Runs the labeling loop over the groups, threading the RNG position:
each row consumes one position, in group-iteration order. -/
def labelGroups (q : ℚ) (rand : Nat → ℚ) (ch : Nat → Fin labelUniverse.length) :
    Nat → List (String × List String) → List (String × List String)
  | _, [] => []
  | n, g :: gs =>
      (g.1, labelPreds q rand ch n g.2) :: labelGroups q rand ch (n + g.2.length) gs

/-- The labeled groups produced by the `for event_id, group in
data.groupby("event_id")` loop. -/
def labelData (q : ℚ) (rand : Nat → ℚ) (ch : Nat → Fin labelUniverse.length)
    (rows : List Row) : List (String × List String) :=
  labelGroups q rand ch 0 (groupedData rows)

/-- The inner `groundTruthData` dict of a record. -/
structure GroundTruthData where
  data : List String
  encoding : String
deriving DecidableEq, Repr

/-- The inner `eventMetadata` dict of a record. -/
structure EventMetadata where
  eventId : String
deriving DecidableEq, Repr

/-- The record dict built for each group in the source. -/
structure GroundTruthRecord where
  groundTruthData : GroundTruthData
  eventMetadata : EventMetadata
  eventVersion : String
deriving DecidableEq, Repr

/-- The record literal the loop appends for a group. -/
def mkRecord (eventId : String) (preds : List String) : GroundTruthRecord :=
  { groundTruthData := { data := preds, encoding := "CSV" }
    eventMetadata := { eventId := eventId }
    eventVersion := "0" }

/-- One hex digit, lowercase, as CPython json uses in escapes. -/
def hexDigit (n : Nat) : Char :=
  if n < 10 then Char.ofNat (48 + n) else Char.ofNat (87 + n)

/-- A `backslash-u` four-hex-digit escape. -/
def uEscape (n : Nat) : String :=
  "\\u" ++ String.mk [hexDigit (n / 4096 % 16), hexDigit (n / 256 % 16),
    hexDigit (n / 16 % 16), hexDigit (n % 16)]

/-- CPython `json.dumps` escaping of one character with default options:
quote and backslash get a backslash, the named control escapes are used,
every other character outside the printable ASCII range `0x20`-`0x7e` is
escaped as four hex digits (with a surrogate pair beyond the BMP). -/
def escapeChar (c : Char) : String :=
  if c = '"' then "\\\""
  else if c = '\\' then "\\\\"
  else if c = '\n' then "\\n"
  else if c = '\t' then "\\t"
  else if c = '\r' then "\\r"
  else if c = '\x08' then "\\b"
  else if c = '\x0c' then "\\f"
  else if 32 ≤ c.toNat ∧ c.toNat ≤ 126 then String.singleton c
  else if c.toNat < 65536 then uEscape c.toNat
  else uEscape (55296 + (c.toNat - 65536) / 1024) ++
    uEscape (56320 + (c.toNat - 65536) % 1024)

/-- Escaping every character of a string, in order. -/
def escapeString : List Char → String
  | [] => ""
  | c :: cs => escapeChar c ++ escapeString cs

/-- `json.dumps` of a string value. -/
def dumpString (s : String) : String :=
  "\"" ++ escapeString s.data ++ "\""

/-- The comma-space separated items of a serialized list. -/
def dumpStringItems : List String → String
  | [] => ""
  | [x] => dumpString x
  | x :: y :: xs => dumpString x ++ ", " ++ dumpStringItems (y :: xs)

/-- `json.dumps` of a list of strings (default separators). -/
def dumpStringList (xs : List String) : String :=
  "[" ++ dumpStringItems xs ++ "]"

/-- `json.dumps(record)` for the fixed record shape built in the source,
with CPython's default separators and the dict's insertion order. -/
def dumpsRecord (r : GroundTruthRecord) : String :=
  "\x7b\"groundTruthData\": \x7b\"data\": " ++ dumpStringList r.groundTruthData.data ++
    ", \"encoding\": " ++ dumpString r.groundTruthData.encoding ++
    "\x7d, \"eventMetadata\": \x7b\"eventId\": " ++ dumpString r.eventMetadata.eventId ++
    "\x7d, \"eventVersion\": " ++ dumpString r.eventVersion ++ "\x7d"

/-- The `records` list of the source, as record values. -/
def groundTruthRecords (q : ℚ) (rand : Nat → ℚ) (ch : Nat → Fin labelUniverse.length)
    (rows : List Row) : List GroundTruthRecord :=
  (labelData q rand ch rows).map fun g => mkRecord g.1 g.2

/-- `ground_truth_payload = "\n".join(records)`. -/
def groundTruthPayload (q : ℚ) (rand : Nat → ℚ) (ch : Nat → Fin labelUniverse.length)
    (rows : List Row) : String :=
  "\n".intercalate ((groundTruthRecords q rand ch rows).map dumpsRecord)

/-- The UTC wall-clock instant `datetime.now(tz=timezone.utc)` observed at
upload time. -/
structure UTCTime where
  year : Nat
  month : Nat
  day : Nat
  hour : Nat
  minute : Nat
  second : Nat
deriving DecidableEq, Repr

/-- Zero-padding to two digits, as strftime `%m` `%d` `%H` `%M` `%S`. -/
def pad2 (n : Nat) : String :=
  if n < 10 then "0" ++ toString n else toString n

/-- Zero-padding to four digits, as strftime `%Y` for common-era years. -/
def pad4 (n : Nat) : String :=
  if n < 10 then "000" ++ toString n
  else if n < 100 then "00" ++ toString n
  else if n < 1000 then "0" ++ toString n
  else toString n

/-- The f-string `upload_time:%Y/%m/%d/%H/%M%S`. -/
def strftimePath (t : UTCTime) : String :=
  pad4 t.year ++ "/" ++ pad2 t.month ++ "/" ++ pad2 t.day ++ "/" ++
    pad2 t.hour ++ "/" ++ pad2 t.minute ++ pad2 t.second

/-- Splitting a character list at every occurrence of a separator, with
Python `str.split(sep)` semantics for a one-character separator: empty
pieces are kept, and the empty input gives one empty piece. -/
def splitChar (sep : Char) : List Char → List (List Char)
  | [] => [[]]
  | c :: cs =>
      match splitChar sep cs with
      | [] => [[]]
      | g :: gs => if c = sep then [] :: g :: gs else (c :: g) :: gs

/-- Python `s.split("/")`. -/
def pySplit (s : String) : List String :=
  (splitChar '/' s.data).map String.mk

/-- `self.ground_truth_uri.split("/")[2]`, the bucket passed to
`put_object`. -/
def destinationBucket (uri : String) : String :=
  (pySplit uri)[2]!

/-- The `Key` passed to `put_object`:
`"/".join(uri.split("/")[3:]) + f"...".jsonl` (note: nothing is inserted
between the joined tail and the timestamp). -/
def destinationKey (uri : String) (t : UTCTime) : String :=
  "/".intercalate ((pySplit uri).drop 3) ++ strftimePath t ++ ".jsonl"

/-- Modelled from the spec (§6 Destination key format): the key format the
spec states, `<prefix-after-bucket>/<YYYY>/<MM>/<DD>/<HH>/<MM><SS>.jsonl`,
with an explicit slash between the prefix and the timestamp. -/
def specFormatKey (prefixAfterBucket : String) (t : UTCTime) : String :=
  prefixAfterBucket ++ "/" ++ strftimePath t ++ ".jsonl"

/-- Observable side effects of `_label_sagemaker_data`: the call to
`load_unlabeled_collected_data` and the `s3_client.put_object` call. -/
inductive Eff where
  | loadData (datastoreUri gtUri : String)
  | putObject (body bucket key : String)
deriving DecidableEq, Repr

/-- The exception kinds the `label` step can raise: `RuntimeError` for the
missing ground-truth location, `ValueError` for an invalid datastore
scheme. -/
inductive PyError where
  | runtimeError (msg : String)
  | valueError (msg : String)
deriving DecidableEq, Repr

/-- The result of running the step: the effects performed in order, and
the exception raised, if any. -/
structure Outcome where
  effects : List Eff
  error : Option PyError
deriving DecidableEq, Repr

/-- `_label_sagemaker_data`, with its inputs made explicit: the datastore
and ground-truth parameters, the quality, the RNG streams, the data the
external loader would return, and the current UTC time. A `none` or empty
`gtUri` is falsy in `if not self.ground_truth_uri`. -/
def labelSagemakerData (datastoreUri : String) (gtUri : Option String) (q : ℚ)
    (rand : Nat → ℚ) (ch : Nat → Fin labelUniverse.length)
    (collected : List Row) (uploadTime : UTCTime) : Outcome :=
  let uri := gtUri.getD ""
  if uri = "" then
    { effects := [], error := some (.runtimeError "The 'ground-truth-uri' parameter is required.") }
  else if collected.isEmpty then
    { effects := [.loadData datastoreUri uri], error := none }
  else
    { effects := [.loadData datastoreUri uri,
        .putObject (groundTruthPayload q rand ch collected)
          (destinationBucket uri) (destinationKey uri uploadTime)]
      error := none }

/-- The `ValueError` message for an invalid datastore scheme. -/
def invalidDatastoreMessage : String :=
  "Invalid datastore location. Must be an S3 location in the "
    ++ "format `s3://bucket/pre" ++ "fix` or a SQLite database file in the format "
    ++ "`sqlite:///path/to/database.db`"

/-- Whether the first list is an initial segment of the second. -/
def charListLeads : List Char → List Char → Bool
  | [], _ => true
  | _ :: _, [] => false
  | a :: as, b :: bs => if a = b then charListLeads as bs else false

/-- Python `s.startswith(head)`. -/
def pyStartsWith (s head : String) : Bool :=
  charListLeads head.data s.data

/-- The `label` step: dispatch on the datastore URI scheme. -/
def labelStep (datastoreUri : String) (gtUri : Option String) (q : ℚ)
    (rand : Nat → ℚ) (ch : Nat → Fin labelUniverse.length)
    (collected : List Row) (uploadTime : UTCTime) : Outcome :=
  if pyStartsWith datastoreUri "s3://" then
    labelSagemakerData datastoreUri gtUri q rand ch collected uploadTime
  else if pyStartsWith datastoreUri "sqlite://" then
    { effects := [], error := none }
  else
    { effects := []
      error := some (.valueError invalidDatastoreMessage) }


/-! ### String order: the comparison used by the grouping is the
lexicographic order on strings -/

theorem charListLe_iff (as : List Char) : ∀ bs : List Char,
    charListLe as bs = true ↔ ¬ List.Lex (· < ·) bs as := by
  induction as with
  | nil =>
      intro bs
      exact iff_of_true rfl (List.Lex.not_nil_right _ bs)
  | cons a as ih =>
      intro bs
      cases bs with
      | nil =>
          refine iff_of_false ?_ (by simp [List.Lex.nil])
          simp [charListLe]
      | cons b bs =>
          show (if a < b then true else if b < a then false else charListLe as bs) = true ↔ _
          rcases lt_trichotomy a b with hab | hab | hab
          · rw [if_pos hab]
            refine iff_of_true rfl fun h => ?_
            cases h with
            | rel h' => exact absurd hab (asymm h')
            | cons h' => exact absurd hab (lt_irrefl a)
          · subst hab
            rw [if_neg (lt_irrefl a), if_neg (lt_irrefl a)]
            rw [ih bs, List.Lex.cons_iff]
          · rw [if_neg (asymm hab), if_pos hab]
            exact iff_of_false (by simp) (by simp [List.Lex.rel hab])

/-- `strLe` is the standard `≤` on `String`. -/
theorem strLe_iff_le (a b : String) : strLe a b = true ↔ a ≤ b := by
  have h : a ≤ b ↔ ¬ b < a := Iff.rfl
  rw [h, String.lt_iff_toList_lt]
  exact charListLe_iff a.data b.data

theorem insertSorted_perm (a : String) (l : List String) :
    List.Perm (insertSorted a l) (a :: l) := by
  induction l with
  | nil => exact List.Perm.refl _
  | cons b bs ih =>
      simp only [insertSorted]
      by_cases h : strLe a b
      · rw [if_pos h]
      · rw [if_neg h]
        exact (ih.cons b).trans (List.Perm.swap a b bs)

theorem sortStrings_perm (l : List String) : List.Perm (sortStrings l) l := by
  induction l with
  | nil => exact List.Perm.refl _
  | cons a as ih =>
      exact (insertSorted_perm a (sortStrings as)).trans (ih.cons a)

theorem insertSorted_sorted (a : String) {l : List String}
    (h : l.Sorted (· ≤ ·)) : (insertSorted a l).Sorted (· ≤ ·) := by
  induction l with
  | nil => simp [insertSorted]
  | cons b bs ih =>
      simp only [insertSorted]
      rw [List.sorted_cons] at h
      by_cases hab : strLe a b
      · rw [if_pos hab]
        have hle : a ≤ b := (strLe_iff_le a b).mp hab
        rw [List.sorted_cons]
        refine ⟨fun c hc => ?_, List.sorted_cons.mpr h⟩
        rcases List.mem_cons.mp hc with rfl | hc
        · exact hle
        · exact hle.trans (h.1 c hc)
      · rw [if_neg hab]
        have hba : b ≤ a := le_of_not_le fun hle => hab ((strLe_iff_le a b).mpr hle)
        rw [List.sorted_cons]
        refine ⟨fun c hc => ?_, ih h.2⟩
        rw [(insertSorted_perm a bs).mem_iff] at hc
        rcases List.mem_cons.mp hc with rfl | hc
        · exact hba
        · exact h.1 c hc

theorem sortStrings_sorted (l : List String) :
    (sortStrings l).Sorted (· ≤ ·) := by
  induction l with
  | nil => simp [sortStrings]
  | cons a as ih => exact insertSorted_sorted a ih

/-! ### Labeling lemmas -/

theorem labelPreds_length (q : ℚ) (rand : Nat → ℚ) (ch : Nat → Fin labelUniverse.length) :
    ∀ (ps : List String) (n : Nat), (labelPreds q rand ch n ps).length = ps.length := by
  intro ps
  induction ps with
  | nil => intro n; rfl
  | cons p ps ih => intro n; simpa [labelPreds] using ih (n + 1)

theorem labelPreds_keep (q : ℚ) (rand : Nat → ℚ) (ch : Nat → Fin labelUniverse.length)
    (hr : ∀ m, rand m < q) :
    ∀ (ps : List String) (n : Nat), labelPreds q rand ch n ps = ps := by
  intro ps
  induction ps with
  | nil => intro n; rfl
  | cons p ps ih =>
      intro n
      simp only [labelPreds, if_pos (hr n)]
      rw [ih (n + 1)]

theorem labelPreds_substitute (q : ℚ) (rand : Nat → ℚ) (ch : Nat → Fin labelUniverse.length)
    (hr : ∀ m, ¬ rand m < q) :
    ∀ (ps : List String) (n : Nat) (x : String),
      x ∈ labelPreds q rand ch n ps → x ∈ labelUniverse := by
  intro ps
  induction ps with
  | nil => intro n x hx; cases hx
  | cons p ps ih =>
      intro n x hx
      simp only [labelPreds, if_neg (hr n)] at hx
      rcases List.mem_cons.mp hx with rfl | hx
      · exact List.get_mem _ _ _
      · exact ih (n + 1) x hx

theorem labelPreds_get (q : ℚ) (rand : Nat → ℚ) (ch : Nat → Fin labelUniverse.length) :
    ∀ (ps : List String) (n i : Nat) (h1 : i < (labelPreds q rand ch n ps).length)
      (h2 : i < ps.length),
      (labelPreds q rand ch n ps).get ⟨i, h1⟩ =
        if rand (n + i) < q then ps.get ⟨i, h2⟩ else labelUniverse.get (ch (n + i)) := by
  intro ps
  induction ps with
  | nil => intro n i h1 h2; cases h2
  | cons p ps ih =>
      intro n i h1 h2
      cases i with
      | zero => simp [labelPreds]
      | succ j =>
          have h1' : j < (labelPreds q rand ch (n + 1) ps).length := by
            simpa [labelPreds] using h1
          have h2' : j < ps.length := Nat.lt_of_succ_lt_succ h2
          have := ih (n + 1) j h1' h2'
          simp only [labelPreds, List.get_cons_succ]
          rw [this]
          have harith : n + 1 + j = n + (j + 1) := by omega
          rw [harith]

theorem labelGroups_map_fst (q : ℚ) (rand : Nat → ℚ) (ch : Nat → Fin labelUniverse.length) :
    ∀ (gs : List (String × List String)) (n : Nat),
      (labelGroups q rand ch n gs).map Prod.fst = gs.map Prod.fst := by
  intro gs
  induction gs with
  | nil => intro n; rfl
  | cons g gs ih => intro n; simp [labelGroups, ih]

theorem labelGroups_length (q : ℚ) (rand : Nat → ℚ) (ch : Nat → Fin labelUniverse.length) :
    ∀ (gs : List (String × List String)) (n : Nat),
      (labelGroups q rand ch n gs).length = gs.length := by
  intro gs
  induction gs with
  | nil => intro n; rfl
  | cons g gs ih => intro n; simp [labelGroups, ih]

theorem labelGroups_mem (q : ℚ) (rand : Nat → ℚ) (ch : Nat → Fin labelUniverse.length) :
    ∀ (gs : List (String × List String)) (n : Nat) (p : String × List String),
      p ∈ labelGroups q rand ch n gs →
      ∃ g ∈ gs, ∃ m, p.1 = g.1 ∧ p.2 = labelPreds q rand ch m g.2 := by
  intro gs
  induction gs with
  | nil => intro n p hp; cases hp
  | cons g gs ih =>
      intro n p hp
      rcases List.mem_cons.mp hp with rfl | hp
      · exact ⟨g, List.mem_cons_self g gs, n, rfl, rfl⟩
      · rcases ih (n + g.2.length) p hp with ⟨g', hg', m, h1, h2⟩
        exact ⟨g', List.mem_cons_of_mem g hg', m, h1, h2⟩

theorem labelGroups_keep (q : ℚ) (rand : Nat → ℚ) (ch : Nat → Fin labelUniverse.length)
    (hr : ∀ m, rand m < q) :
    ∀ (gs : List (String × List String)) (n : Nat), labelGroups q rand ch n gs = gs := by
  intro gs
  induction gs with
  | nil => intro n; rfl
  | cons g gs ih =>
      intro n
      simp only [labelGroups, labelPreds_keep q rand ch hr, ih]

theorem groupedData_mem (rows : List Row) (p : String × List String)
    (hp : p ∈ groupedData rows) :
    p.2 = (rows.filter fun r => r.event_id == p.1).map Row.prediction := by
  rcases List.mem_map.mp hp with ⟨k, _, hk⟩
  rw [← hk]

theorem groupedData_map_fst (rows : List Row) :
    (groupedData rows).map Prod.fst = sortStrings ((rows.map Row.event_id).dedup) := by
  simp only [groupedData, List.map_map]
  exact List.map_id _

theorem labelData_mem (q : ℚ) (rand : Nat → ℚ) (ch : Nat → Fin labelUniverse.length)
    (rows : List Row) (p : String × List String) (hp : p ∈ labelData q rand ch rows) :
    ∃ m, p.2 = labelPreds q rand ch m
      ((rows.filter fun r => r.event_id == p.1).map Row.prediction) := by
  rcases labelGroups_mem q rand ch (groupedData rows) 0 p hp with ⟨g, hg, m, h1, h2⟩
  refine ⟨m, ?_⟩
  rw [h2, groupedData_mem rows g hg, h1]

/-! ### The serialization never contains a raw newline: each record is a
single line of the payload -/

theorem hexDigit_ne_newline : ∀ m : Nat, m < 16 → hexDigit m ≠ '\n' := by
  decide

theorem newline_notin_uEscape (n : Nat) : '\n' ∉ (uEscape n).data := by
  intro hmem
  rw [uEscape, String.data_append] at hmem
  rcases List.mem_append.mp hmem with h | h
  · revert h; decide
  · have h16 : ∀ x : Nat, x % 16 < 16 := fun x => Nat.mod_lt _ (by norm_num)
    simp only [String.mk, List.mem_cons, List.not_mem_nil, or_false] at h
    rcases h with h | h | h | h
    all_goals exact hexDigit_ne_newline _ (h16 _) h.symm

theorem newline_notin_escapeChar (c : Char) : '\n' ∉ (escapeChar c).data := by
  rw [escapeChar]
  split_ifs with h1 h2 h3 h4 h5 h6 h7 h8 h9
  · decide
  · decide
  · decide
  · decide
  · decide
  · decide
  · decide
  · intro hmem
    have hc : '\n' = c := by
      simpa [String.singleton, List.mem_singleton] using hmem
    rw [← hc] at h8
    exact absurd h8.1 (by decide)
  · exact newline_notin_uEscape _
  · intro hmem
    rw [String.data_append] at hmem
    rcases List.mem_append.mp hmem with h | h
    · exact newline_notin_uEscape _ h
    · exact newline_notin_uEscape _ h

theorem newline_notin_escapeString (cs : List Char) :
    '\n' ∉ (escapeString cs).data := by
  induction cs with
  | nil => intro h; cases h
  | cons c cs ih =>
      intro hmem
      rw [escapeString, String.data_append] at hmem
      rcases List.mem_append.mp hmem with h | h
      · exact newline_notin_escapeChar c h
      · exact ih h

theorem newline_notin_dumpString (s : String) : '\n' ∉ (dumpString s).data := by
  intro hmem
  rw [dumpString, String.data_append, String.data_append] at hmem
  rcases List.mem_append.mp hmem with h | h
  · rcases List.mem_append.mp h with h | h
    · revert h; decide
    · exact newline_notin_escapeString _ h
  · revert h; decide

theorem newline_notin_dumpStringItems (xs : List String) :
    '\n' ∉ (dumpStringItems xs).data := by
  induction xs with
  | nil => intro h; cases h
  | cons x xs ih =>
      cases xs with
      | nil => exact newline_notin_dumpString x
      | cons y ys =>
          intro hmem
          rw [dumpStringItems, String.data_append, String.data_append] at hmem
          rcases List.mem_append.mp hmem with h | h
          · rcases List.mem_append.mp h with h | h
            · exact newline_notin_dumpString x h
            · revert h; decide
          · exact ih h

theorem newline_notin_dumpStringList (xs : List String) :
    '\n' ∉ (dumpStringList xs).data := by
  intro hmem
  rw [dumpStringList, String.data_append, String.data_append] at hmem
  rcases List.mem_append.mp hmem with h | h
  · rcases List.mem_append.mp h with h | h
    · revert h; decide
    · exact newline_notin_dumpStringItems _ h
  · revert h; decide

theorem newline_notin_dumpsRecord (r : GroundTruthRecord) :
    '\n' ∉ (dumpsRecord r).data := by
  intro hmem
  rw [dumpsRecord] at hmem
  simp only [String.data_append, List.mem_append] at hmem
  rcases hmem with ((((((((h | h) | h) | h) | h) | h) | h) | h) | h)
  · revert h; decide
  · exact newline_notin_dumpStringList _ h
  · revert h; decide
  · exact newline_notin_dumpString _ h
  · revert h; decide
  · exact newline_notin_dumpString _ h
  · revert h; decide
  · exact newline_notin_dumpString _ h
  · revert h; decide

/-! ### Concrete streams and instants used to instantiate the theorems -/

/-- An RNG stream whose `random.random()` draws are all `0`. -/
def randZero : Nat → ℚ := fun _ => 0

/-- A choice stream that always draws the first universe label. -/
def choiceZero : Nat → Fin labelUniverse.length := fun _ => ⟨0, by decide⟩

/-- A fixed UTC upload instant: 2026-01-02 03:04:05. -/
def sampleTime : UTCTime := ⟨2026, 1, 2, 3, 4, 5⟩

/-- C1: with quality probability 1.0, every prediction emitted for a group
equals the corresponding original `prediction` column of that group's rows
(no substitution occurs), given that every `random.random()` draw is
below 1. -/
theorem quality_one_preserves_predictions (rand : Nat → ℚ)
    (ch : Nat → Fin labelUniverse.length) (rows : List Row)
    (hr : ∀ n, rand n < 1) :
    ∀ p ∈ labelData 1 rand ch rows,
      p.2 = (rows.filter fun r => r.event_id == p.1).map Row.prediction := by
  intro p hp
  rcases labelData_mem 1 rand ch rows p hp with ⟨m, hm⟩
  rw [hm, labelPreds_keep 1 rand ch hr]

/-- Witness for C1 at a concrete input. -/
theorem quality_one_preserves_predictions_witness :
    (("a", ["Adelie"]) : String × List String).2 =
      (([⟨"a", "Adelie"⟩] : List Row).filter fun r => r.event_id == "a").map
        Row.prediction :=
  quality_one_preserves_predictions randZero choiceZero [⟨"a", "Adelie"⟩]
    (fun _ => show (0 : ℚ) < 1 by decide) ("a", ["Adelie"]) (List.mem_singleton.mpr rfl)

/-- C2: with quality probability 0.0, every emitted prediction is one of
the three universe labels, given that every `random.random()` draw is
nonnegative. -/
theorem quality_zero_draws_from_universe (rand : Nat → ℚ)
    (ch : Nat → Fin labelUniverse.length) (rows : List Row)
    (hr : ∀ n, 0 ≤ rand n) :
    ∀ p ∈ labelData 0 rand ch rows, ∀ x ∈ p.2, x ∈ labelUniverse := by
  intro p hp x hx
  rcases labelData_mem 0 rand ch rows p hp with ⟨m, hm⟩
  rw [hm] at hx
  exact labelPreds_substitute 0 rand ch (fun m => not_lt.mpr (hr m)) _ _ x hx

/-- Witness for C2 at a concrete input. -/
theorem quality_zero_draws_from_universe_witness :
    ("Adelie" : String) ∈ labelUniverse :=
  quality_zero_draws_from_universe randZero choiceZero [⟨"a", "Gentoo"⟩]
    (fun _ => show (0 : ℚ) ≤ 0 by decide) ("a", ["Adelie"]) (List.mem_singleton.mpr rfl)
    "Adelie" (List.mem_singleton.mpr rfl)

/-- C3: the number of records serialized into the payload equals the
number of distinct `event_id` values in the input. -/
theorem records_count_eq_distinct_event_ids (q : ℚ) (rand : Nat → ℚ)
    (ch : Nat → Fin labelUniverse.length) (rows : List Row) :
    (groundTruthRecords q rand ch rows).length =
      ((rows.map Row.event_id).toFinset).card := by
  rw [List.card_toFinset, groundTruthRecords, List.length_map, labelData,
    labelGroups_length, groupedData, List.length_map]
  exact (sortStrings_perm _).length_eq

/-- C4: each emitted group carries exactly one prediction per input row of
that `event_id`, produced positionwise (in input row order) from the
group's original predictions. -/
theorem group_predictions_one_per_row_in_order (q : ℚ) (rand : Nat → ℚ)
    (ch : Nat → Fin labelUniverse.length) (rows : List Row) :
    ∀ p ∈ labelData q rand ch rows,
      p.2.length = (rows.filter fun r => r.event_id == p.1).length ∧
      ∃ m, p.2 = labelPreds q rand ch m
        ((rows.filter fun r => r.event_id == p.1).map Row.prediction) := by
  intro p hp
  rcases labelData_mem q rand ch rows p hp with ⟨m, hm⟩
  exact ⟨by rw [hm, labelPreds_length, List.length_map], m, hm⟩

/-- Witness for C4 at a concrete input. -/
theorem group_predictions_one_per_row_in_order_witness :
    (("a", ["Adelie"]) : String × List String).2.length =
      (([⟨"a", "Adelie"⟩] : List Row).filter fun r => r.event_id == "a").length ∧
    ∃ m, (("a", ["Adelie"]) : String × List String).2 =
      labelPreds 1 randZero choiceZero m
        ((([⟨"a", "Adelie"⟩] : List Row).filter fun r => r.event_id == "a").map
          Row.prediction) :=
  group_predictions_one_per_row_in_order 1 randZero choiceZero [⟨"a", "Adelie"⟩]
    ("a", ["Adelie"]) (List.mem_singleton.mpr rfl)

/-- C9: for any quality, the label emitted at each position of a group is
either that position's original prediction or one of the three universe
labels. -/
theorem emitted_label_original_or_universe (q : ℚ) (rand : Nat → ℚ)
    (ch : Nat → Fin labelUniverse.length) (rows : List Row) :
    ∀ p ∈ labelData q rand ch rows,
      ∀ (i : Nat) (h1 : i < p.2.length)
        (h2 : i < ((rows.filter fun r => r.event_id == p.1).map Row.prediction).length),
        p.2.get ⟨i, h1⟩ =
          ((rows.filter fun r => r.event_id == p.1).map Row.prediction).get ⟨i, h2⟩ ∨
        p.2.get ⟨i, h1⟩ ∈ labelUniverse := by
  intro p hp
  rcases p with ⟨k, ps⟩
  intro i h1 h2
  rcases labelData_mem q rand ch rows (k, ps) hp with ⟨m, hm⟩
  simp only at hm h1 h2 ⊢
  subst hm
  rw [labelPreds_get q rand ch _ m i h1 h2]
  by_cases hq : rand (m + i) < q
  · left; rw [if_pos hq]
  · right; rw [if_neg hq]; exact List.get_mem _ _ _

/-- Witness for C9 at a concrete input. -/
theorem emitted_label_original_or_universe_witness :
    (["Adelie"] : List String).get ⟨0, by decide⟩ =
      ((([⟨"a", "Adelie"⟩] : List Row).filter fun r => r.event_id == "a").map
        Row.prediction).get ⟨0, by decide⟩ ∨
    (["Adelie"] : List String).get ⟨0, by decide⟩ ∈ labelUniverse :=
  emitted_label_original_or_universe 1 randZero choiceZero [⟨"a", "Adelie"⟩]
    ("a", ["Adelie"]) (List.mem_singleton.mpr rfl) 0 (by decide) (by decide)

/-- C10: the emitted records are ordered by ascending `event_id` (with no
duplicate key), the order induced by the grouping operation's key
sorting. -/
theorem records_sorted_by_event_id (q : ℚ) (rand : Nat → ℚ)
    (ch : Nat → Fin labelUniverse.length) (rows : List Row) :
    ((labelData q rand ch rows).map Prod.fst).Sorted (· ≤ ·) ∧
    ((labelData q rand ch rows).map Prod.fst).Nodup := by
  rw [labelData, labelGroups_map_fst, groupedData_map_fst]
  exact ⟨sortStrings_sorted _, (sortStrings_perm _).nodup_iff.mpr (List.nodup_dedup _)⟩

/-- C5: every emitted record has `groundTruthData = (data, "CSV")`,
`eventMetadata = (eventId)`, `eventVersion = "0"`; every serialized record
is a single line (no raw newline can appear in it); and on the spec's
example input with quality 1.0 the payload is exactly the serialization of
the one stated record. -/
theorem record_shape_and_payload_example (q : ℚ) (rand : Nat → ℚ)
    (ch : Nat → Fin labelUniverse.length) (rows : List Row) :
    (∀ rec ∈ groundTruthRecords q rand ch rows,
        rec.groundTruthData.encoding = "CSV" ∧ rec.eventVersion = "0" ∧
        ∃ p ∈ labelData q rand ch rows,
          rec.groundTruthData.data = p.2 ∧ rec.eventMetadata.eventId = p.1) ∧
    (∀ rec : GroundTruthRecord, '\n' ∉ (dumpsRecord rec).data) ∧
    (∀ (rand2 : Nat → ℚ) (ch2 : Nat → Fin labelUniverse.length),
        (∀ n, rand2 n < 1) →
        groundTruthRecords 1 rand2 ch2 [⟨"a", "Adelie"⟩, ⟨"a", "Gentoo"⟩] =
          [(⟨⟨["Adelie", "Gentoo"], "CSV"⟩, ⟨"a"⟩, "0"⟩ : GroundTruthRecord)] ∧
        groundTruthPayload 1 rand2 ch2 [⟨"a", "Adelie"⟩, ⟨"a", "Gentoo"⟩] =
          dumpsRecord (⟨⟨["Adelie", "Gentoo"], "CSV"⟩, ⟨"a"⟩, "0"⟩ : GroundTruthRecord)) := by
  refine ⟨?_, newline_notin_dumpsRecord, ?_⟩
  · intro rec hrec
    rcases List.mem_map.mp hrec with ⟨p, hp, hrec⟩
    exact ⟨by rw [← hrec]; rfl, by rw [← hrec]; rfl, p, hp,
      by rw [← hrec]; rfl, by rw [← hrec]; rfl⟩
  · intro rand2 ch2 hr
    have h : labelData 1 rand2 ch2 [⟨"a", "Adelie"⟩, ⟨"a", "Gentoo"⟩] =
        groupedData [⟨"a", "Adelie"⟩, ⟨"a", "Gentoo"⟩] := by
      rw [labelData, labelGroups_keep 1 rand2 ch2 hr]
    constructor
    · rw [groundTruthRecords, h]
      rfl
    · rw [groundTruthPayload, groundTruthRecords, h]
      rfl

/-- Witness for C5 at a concrete input. -/
theorem record_shape_and_payload_example_witness :
    groundTruthRecords 1 randZero choiceZero [⟨"a", "Adelie"⟩, ⟨"a", "Gentoo"⟩] =
      [(⟨⟨["Adelie", "Gentoo"], "CSV"⟩, ⟨"a"⟩, "0"⟩ : GroundTruthRecord)] ∧
    groundTruthPayload 1 randZero choiceZero [⟨"a", "Adelie"⟩, ⟨"a", "Gentoo"⟩] =
      dumpsRecord (⟨⟨["Adelie", "Gentoo"], "CSV"⟩, ⟨"a"⟩, "0"⟩ : GroundTruthRecord) :=
  (record_shape_and_payload_example 1 randZero choiceZero []).2.2 randZero choiceZero
    (fun _ => show (0 : ℚ) < 1 by decide)

/-- C6: on an empty dataset the routine returns successfully right after
the load: no record is built and no write is performed. -/
theorem empty_input_no_write (ds uri : String) (q : ℚ) (rand : Nat → ℚ)
    (ch : Nat → Fin labelUniverse.length) (t : UTCTime) (h : uri ≠ "") :
    labelSagemakerData ds (some uri) q rand ch [] t =
      { effects := [.loadData ds uri], error := none } ∧
    groundTruthRecords q rand ch [] = [] ∧
    (∀ b bu k, Eff.putObject b bu k ∉
      (labelSagemakerData ds (some uri) q rand ch [] t).effects) := by
  have h1 : labelSagemakerData ds (some uri) q rand ch [] t =
      { effects := [.loadData ds uri], error := none } := by
    simp [labelSagemakerData, h]
  refine ⟨h1, rfl, ?_⟩
  intro b bu k hmem
  rw [h1] at hmem
  simp at hmem

/-- Witness for C6 at a concrete input. -/
theorem empty_input_no_write_witness :
    labelSagemakerData "s3://bucket/data" (some "s3://bucket/gt/") 1 randZero
      choiceZero [] sampleTime =
      { effects := [.loadData "s3://bucket/data" "s3://bucket/gt/"], error := none } :=
  (empty_input_no_write "s3://bucket/data" "s3://bucket/gt/" 1 randZero choiceZero
    sampleTime (by decide)).1

/-- C7: on the S3 datastore path, an absent (or empty) ground-truth
location makes the step fail immediately with a `RuntimeError` and no
effect performed, while an invalid datastore scheme fails with a
`ValueError`; the two exception kinds are distinct. -/
theorem missing_ground_truth_uri_fails_fast (ds : String) (gtUri : Option String)
    (q : ℚ) (rand : Nat → ℚ) (ch : Nat → Fin labelUniverse.length)
    (rows : List Row) (t : UTCTime)
    (hds : pyStartsWith ds "s3://" = true) (hgt : gtUri = none ∨ gtUri = some "") :
    labelStep ds gtUri q rand ch rows t =
      { effects := [],
        error := some (.runtimeError "The 'ground-truth-uri' parameter is required.") } ∧
    (∀ m1 m2, PyError.runtimeError m1 ≠ PyError.valueError m2) ∧
    (∀ (ds2 : String) (gt2 : Option String) (q2 : ℚ) (rand2 : Nat → ℚ)
        (ch2 : Nat → Fin labelUniverse.length) (rows2 : List Row) (t2 : UTCTime),
        pyStartsWith ds2 "s3://" = false → pyStartsWith ds2 "sqlite://" = false →
        ∃ msg, labelStep ds2 gt2 q2 rand2 ch2 rows2 t2 =
          { effects := [], error := some (.valueError msg) }) := by
  refine ⟨?_, fun m1 m2 h => PyError.noConfusion h, ?_⟩
  · rcases hgt with rfl | rfl <;> simp [labelStep, hds, labelSagemakerData]
  · intro ds2 gt2 q2 rand2 ch2 rows2 t2 h1 h2
    exact ⟨invalidDatastoreMessage, by simp [labelStep, h1, h2]⟩

/-- Witness for C7 at a concrete input. -/
theorem missing_ground_truth_uri_fails_fast_witness :
    labelStep "s3://bucket/data" none 1 randZero choiceZero [] sampleTime =
      { effects := [],
        error := some (.runtimeError "The 'ground-truth-uri' parameter is required.") } :=
  (missing_ground_truth_uri_fails_fast "s3://bucket/data" none 1 randZero choiceZero
    [] sampleTime (by decide) (Or.inl rfl)).1

/-- C8 counterexample: for the ground-truth location `s3://bucket/pfx`
(no trailing slash) the key actually used is `pfx2026/01/02/03/0405.jsonl`,
which is not of the claimed form
`<prefix-after-bucket>/<YYYY>/<MM>/<DD>/<HH>/<MM><SS>.jsonl`: no slash
separates the prefix from the timestamp. -/
theorem destination_key_missing_separator :
    destinationKey "s3://bucket/pfx" sampleTime = "pfx2026/01/02/03/0405.jsonl" ∧
    specFormatKey "pfx" sampleTime = "pfx/2026/01/02/03/0405.jsonl" ∧
    destinationKey "s3://bucket/pfx" sampleTime ≠ specFormatKey "pfx" sampleTime ∧
    (labelSagemakerData "s3://bucket/data" (some "s3://bucket/pfx") 1 randZero
        choiceZero [⟨"a", "Adelie"⟩] sampleTime).effects =
      [.loadData "s3://bucket/data" "s3://bucket/pfx",
       .putObject (dumpsRecord (mkRecord "a" ["Adelie"])) "bucket"
         "pfx2026/01/02/03/0405.jsonl"] :=
  ⟨rfl, rfl, by decide, rfl⟩

/-- C8 (amended): for every non-empty input on the S3 path, the upload
goes to the bucket component of the ground-truth URI with key equal to the
slash-join of the URI components after the bucket concatenated directly
with the UTC timestamp path `YYYY/MM/DD/HH/MMSS.jsonl` (no separator
inserted); the claimed slashed format is obtained exactly when the part
after the bucket ends with a slash. -/
theorem destination_key_concat_no_separator (uri ds : String) (q : ℚ)
    (rand : Nat → ℚ) (ch : Nat → Fin labelUniverse.length) (rows : List Row)
    (t : UTCTime) (hu : pyStartsWith uri "s3://" = true) (hrows : rows ≠ []) :
    (labelSagemakerData ds (some uri) q rand ch rows t).effects =
      [.loadData ds uri,
       .putObject (groundTruthPayload q rand ch rows) ((pySplit uri)[2]!)
         ("/".intercalate ((pySplit uri).drop 3) ++ strftimePath t ++ ".jsonl")] ∧
    (∀ base, "/".intercalate ((pySplit uri).drop 3) = base ++ "/" →
        destinationKey uri t = specFormatKey base t) := by
  have hne : uri ≠ "" := by
    intro h
    rw [h] at hu
    exact absurd hu (by decide)
  constructor
  · rcases rows with _ | ⟨r, rs⟩
    · exact absurd rfl hrows
    · simp [labelSagemakerData, hne, destinationBucket, destinationKey]
  · intro base hb
    rw [destinationKey, hb, specFormatKey]

/-- Witness for the amended C8 at a concrete input with a trailing-slash
location. -/
theorem destination_key_concat_no_separator_witness :
    (labelSagemakerData "s3://bucket/data" (some "s3://bucket/pfx/") 1 randZero
        choiceZero [⟨"a", "Adelie"⟩] sampleTime).effects =
      [.loadData "s3://bucket/data" "s3://bucket/pfx/",
       .putObject (groundTruthPayload 1 randZero choiceZero [⟨"a", "Adelie"⟩])
         ((pySplit "s3://bucket/pfx/")[2]!)
         ("/".intercalate ((pySplit "s3://bucket/pfx/").drop 3) ++
           strftimePath sampleTime ++ ".jsonl")] ∧
    destinationKey "s3://bucket/pfx/" sampleTime = specFormatKey "pfx" sampleTime := by
  have h := destination_key_concat_no_separator "s3://bucket/pfx/" "s3://bucket/data"
    1 randZero choiceZero [⟨"a", "Adelie"⟩] sampleTime (by decide) (by decide)
  exact ⟨h.1, h.2 "pfx" (by decide)⟩
